import Mathlib

/-!
Formal model of the Airdrop Conductor distribution engine.

The definitions below are shallow embeddings of the repository's execution
engine, translated from `backend/src/services/distributor.service.ts`
(Prisma/TypeScript engine: `executeCampaign`, `processBatch`,
`sendTokenToRecipient`, `monitorConfirmation`, `handleFailure`,
`updateCampaignStats`, `createBatches`), from `server.js` (SQLite engine:
`processJob`, `toSmallestUnit`) and from the campaign creation route
(`backend/src/routes/campaigns.ts`).  JavaScript numbers are modelled as
exact rationals together with an explicit IEEE-754 binary64
round-to-nearest-even function where the source performs floating-point
arithmetic; JavaScript BigInt is modelled as `Int`/`Nat`.
-/

/-- Task (recipient row) statuses used by the Prisma engine
(`distributor.service.ts`): `pending`, `retrying`, `sent`, `confirmed`,
`failed`. -/
inductive RStatus
  | pending
  | retrying
  | sent
  | confirmed
  | failed
  deriving DecidableEq, Repr

/-- Job (campaign) statuses: `pending`, `running`, `completed`, `failed`,
`cancelled`. -/
inductive JobStatus
  | pending
  | running
  | completed
  | failed
  | cancelled
  deriving DecidableEq, Repr

/-- One recipient row as seen by the Stats Aggregator and the Batch
Scheduler: its status and its (nullable) `feesPaid` column. -/
structure RecipientRow where
  status : RStatus
  feesPaid : Option ℚ
  deriving DecidableEq, Repr

/-- Models `parseInt(x) || d` from `campaigns.ts` (`router.post('/')`):
`parseInt` returning `NaN` is modelled as `none`; `0` is falsy in
JavaScript, so it is replaced by the default, while every other integer
(including negative ones) is kept. -/
def jsParseIntOr (v : Option ℤ) (dflt : ℤ) : ℤ :=
  match v with
  | none => dflt
  | some n => if n = 0 then dflt else n

/-- The campaign's `batchSize` as stored by the creation route:
`parseInt(batchSize) || 20`.  There is no positivity check. -/
def campaignBatchSize (input : Option ℤ) : ℤ :=
  jsParseIntOr input 20

/-- The campaign's `maxRetries` as stored by the creation route:
`parseInt(maxRetries) || 3`.  There is no positivity check. -/
def campaignMaxRetries (input : Option ℤ) : ℤ :=
  jsParseIntOr input 3

/-- The update written by `handleFailure` together with the retry delay it
schedules (if any).  `retryDelayMs = some d` means a `setTimeout` re-entry
of the pipeline was scheduled after `d` milliseconds; `none` means the
failure was terminal and nothing was scheduled. -/
structure FailureUpdate where
  status : RStatus
  attempts : ℕ
  lastError : String
  retryDelayMs : Option ℕ
  deriving DecidableEq, Repr

/-- Shallow embedding of `DistributorService.handleFailure`
(`distributor.service.ts`).  `attempts` is the `attempts` field of the
in-memory recipient object handed to it; `maxRetries` is
`campaign.maxRetries` (a JavaScript number, possibly non-positive, hence
`Int`).  The source computes `newAttempts = recipient.attempts + 1`,
compares `newAttempts < campaign.maxRetries`, and on the retry branch
schedules re-entry after `Math.pow(2, newAttempts) * 1000` milliseconds. -/
def handleFailure (attempts : ℕ) (maxRetries : ℤ) (errorMessage : String) :
    FailureUpdate :=
  let newAttempts := attempts + 1
  if (newAttempts : ℤ) < maxRetries then
    { status := .retrying
      attempts := newAttempts
      lastError := errorMessage
      retryDelayMs := some (2 ^ newAttempts * 1000) }
  else
    { status := .failed
      attempts := newAttempts
      lastError := errorMessage
      retryDelayMs := none }

/-- Shallow embedding of `DistributorService.createBatches`
(`distributor.service.ts`): the loop `for (i = 0; i < array.length;
i += size) batches.push(array.slice(i, i + size))`.  For `0 < size`, one
loop iteration emits `array.slice(i, i + size)` (that is, `take size` of
what remains) and advancing `i` by `size` corresponds to dropping `size`
elements, so the loop is realized by the following recursion.  (The loop
does not terminate when `size ≤ 0`; see `createBatchesIndex` below, which
models the raw index progression.) -/
def createBatches {α : Type} (size : ℕ) (hs : 0 < size) :
    List α → List (List α)
  | [] => []
  | x :: xs => ((x :: xs).take size) :: createBatches size hs ((x :: xs).drop size)
  termination_by l => l.length
  decreasing_by
    simp only [List.length_drop, List.length_cons]
    omega

/-- A single invocation of the per-task pipeline
(`sendTokenToRecipient`). -/
inductive PipelineCall
  | sendTokenToRecipient (r : RecipientRow)
  deriving DecidableEq, Repr

/-- Shallow embedding of `DistributorService.processBatch`: it maps each
recipient of the batch to one concurrently dispatched
`sendTokenToRecipient` invocation (then awaits `Promise.allSettled`). -/
def processBatch (batch : List RecipientRow) : List PipelineCall :=
  batch.map PipelineCall.sendTokenToRecipient

/-- The guard of the `createBatches` loop: `i < array.length`. -/
def createBatchesGuard (len i : ℤ) : Bool :=
  i < len

/-- The index update of the `createBatches` loop: `i += size`. -/
def createBatchesNext (size i : ℤ) : ℤ :=
  i + size

/-- The value of the loop index `i` of `createBatches` after `n`
iterations, starting from `i = 0`. -/
def createBatchesIndex (size : ℤ) : ℕ → ℤ
  | 0 => 0
  | n + 1 => createBatchesNext size (createBatchesIndex size n)

/-- Per-task execution state during one `executeCampaign` run.
`dbAttempts` is the `attempts` column of the recipient's database row;
`memAttempts` is the `attempts` field of the in-memory recipient object
the run holds (read once at pickup and never refreshed: `handleFailure`
passes the same object to the delayed `sendTokenToRecipient` re-entry,
and no write mutates the in-memory field); `picked` records whether the
run has picked the task up. -/
structure TaskState where
  status : RStatus
  dbAttempts : ℕ
  memAttempts : ℕ
  picked : Bool
  deriving DecidableEq, Repr

/-- The database writes `distributor.service.ts` performs on one task
during a single `executeCampaign` run, as a step relation.
* `pickup` — `executeCampaign` reads the recipients whose status is
  `pending` or `retrying` into memory.
* `sendSuccess` — `sendTokenToRecipient` succeeds and writes
  `status = sent, attempts = recipient.attempts + 1`.
* `failRetry` — `handleFailure` with `newAttempts < maxRetries` writes
  `status = retrying, attempts = newAttempts` and schedules a delayed
  re-entry holding the same in-memory object.
* `failTerminal` — `handleFailure` otherwise writes
  `status = failed, attempts = newAttempts`.
* `confirmOk` / `confirmFail` — `monitorConfirmation` (started after a
  successful send) writes `confirmed` or `failed`; it does not touch
  `attempts`. -/
inductive TaskStep (maxRetries : ℤ) : TaskState → TaskState → Prop
  | pickup (s : TaskState) :
      s.picked = false →
      (s.status = RStatus.pending ∨ s.status = RStatus.retrying) →
      TaskStep maxRetries s { s with memAttempts := s.dbAttempts, picked := true }
  | sendSuccess (s : TaskState) :
      s.picked = true →
      TaskStep maxRetries s { s with status := RStatus.sent, dbAttempts := s.memAttempts + 1 }
  | failRetry (s : TaskState) :
      s.picked = true →
      ((s.memAttempts : ℤ) + 1 < maxRetries) →
      TaskStep maxRetries s { s with status := RStatus.retrying, dbAttempts := s.memAttempts + 1 }
  | failTerminal (s : TaskState) :
      s.picked = true →
      ¬ ((s.memAttempts : ℤ) + 1 < maxRetries) →
      TaskStep maxRetries s { s with status := RStatus.failed, dbAttempts := s.memAttempts + 1 }
  | confirmOk (s : TaskState) :
      s.status = RStatus.sent →
      TaskStep maxRetries s { s with status := RStatus.confirmed }
  | confirmFail (s : TaskState) :
      s.status = RStatus.sent →
      TaskStep maxRetries s { s with status := RStatus.failed }

/-- A freshly created recipient row (`attempts` defaults to `0`, status to
`pending` in the Prisma schema), not yet picked up. -/
def initialTask : TaskState :=
  { status := RStatus.pending, dbAttempts := 0, memAttempts := 0, picked := false }

/-- States reachable from a fresh task by engine writes of one run. -/
inductive TaskReachable (maxRetries : ℤ) : TaskState → Prop
  | init : TaskReachable maxRetries initialTask
  | step {s t : TaskState} : TaskReachable maxRetries s →
      TaskStep maxRetries s t → TaskReachable maxRetries t

/-- The batch loop of `executeCampaign` (`distributor.service.ts`,
`for (const batch of batches) { await this.processBatch(...); await
this.sleep(500); }`).  The loop body contains no read of the campaign's
status, so the `cancelledBefore` oracle — whether a cancellation request
has been recorded before iteration `i` — is never consulted: every batch
is dispatched. -/
def executeCampaignBatchLoop {α : Type} (cancelledBefore : ℕ → Bool) :
    ℕ → List α → List α
  | _, [] => []
  | i, b :: rest => b :: executeCampaignBatchLoop cancelledBefore (i + 1) rest

/-- The worker loop of `processJob` (`server.js`): before starting each
round it re-reads the job row and stops when its status is `cancelled`.
Returns the dispatched rounds and whether a cancellation was observed. -/
def processJobLoop {α : Type} (cancelledBefore : ℕ → Bool) :
    ℕ → List α → List α × Bool
  | _, [] => ([], false)
  | i, b :: rest =>
      if cancelledBefore i then ([], true)
      else
        let r := processJobLoop cancelledBefore (i + 1) rest
        (b :: r.1, r.2)

/-- Observable outcome of one engine run: the dispatched rounds and the
job status it ends with. -/
structure EngineRun (α : Type) where
  dispatched : List α
  finalStatus : JobStatus
  deriving DecidableEq, Repr

/-- Cancellation-relevant model of `executeCampaign`: run the batch loop
(which ignores the cancellation oracle), then `updateCampaignStats`
unconditionally writes `status = completed` — overwriting a recorded
`cancelled`. -/
def executeCampaignRun {α : Type} (batches : List α)
    (cancelledBefore : ℕ → Bool) : EngineRun α :=
  { dispatched := executeCampaignBatchLoop cancelledBefore 0 batches
    finalStatus := JobStatus.completed }

/-- Cancellation-relevant model of `processJob` (`server.js`): the loop
checks the status before each round, and the final update sets
`completed` only if the job is still `running`, so a recorded
`cancelled` is preserved. -/
def processJobRun {α : Type} (batches : List α)
    (cancelledBefore : ℕ → Bool) : EngineRun α :=
  let r := processJobLoop cancelledBefore 0 batches
  { dispatched := r.1
    finalStatus := if r.2 then JobStatus.cancelled else JobStatus.completed }

/-- Outcome of awaiting a submitted signature, as seen by
`monitorConfirmation`: the ledger finalizes it (with a realized fee in
lamports), reports an on-chain error (`confirmation.value.err`), or the
wait fails — in particular when the validity window expires — making
`confirmTransaction` throw with some message. -/
inductive ConfirmOutcome
  | finalized (feeLamports : ℕ)
  | chainError
  | expired (msg : String)
  deriving DecidableEq, Repr

/-- The fields of the single `prisma.recipient.update` performed by
`monitorConfirmation`.  A `none` field is not written by the update. -/
structure MonitorWrite where
  status : RStatus
  lastError : Option String
  feesPaid : Option ℚ
  setsConfirmedAt : Bool
  deriving DecidableEq, Repr

/-- Calls `monitorConfirmation` could make into the rest of the engine. -/
inductive EngineCall
  | updateRecipient (w : MonitorWrite)
  | invokeHandleFailure (errMsg : String)
  | invokeSendTokenToRecipient
  deriving DecidableEq, Repr

/-- Shallow embedding of `DistributorService.monitorConfirmation` as the
list of engine calls it performs for each confirmation outcome.  On
finality it records `confirmed`, `confirmedAt`, and
`feesPaid = feePaid / 1_000_000_000`; on an on-chain error it throws
`'Transaction failed on-chain'` into its own catch block, which records
`status = failed` with that message; on expiry the thrown message is
recorded the same way.  The body contains no call to `handleFailure`
and no call to `sendTokenToRecipient`. -/
def monitorConfirmation : ConfirmOutcome → List EngineCall
  | ConfirmOutcome.finalized feeLamports =>
      [EngineCall.updateRecipient
        { status := RStatus.confirmed
          lastError := none
          feesPaid := some ((feeLamports : ℚ) / 1000000000)
          setsConfirmedAt := true }]
  | ConfirmOutcome.chainError =>
      [EngineCall.updateRecipient
        { status := RStatus.failed
          lastError := some "Transaction failed on-chain"
          feesPaid := none
          setsConfirmedAt := false }]
  | ConfirmOutcome.expired msg =>
      [EngineCall.updateRecipient
        { status := RStatus.failed
          lastError := some msg
          feesPaid := none
          setsConfirmedAt := false }]

/-- Applying a monitor write to a task's current status: the Prisma
update overwrites the status column unconditionally. -/
def applyMonitorWrite (_current : RStatus) (w : MonitorWrite) : RStatus :=
  w.status

/-- One row of the `prisma.recipient.groupBy` result consumed by
`updateCampaignStats`: a status, its `_count`, and its `_sum.feesPaid`
(summed with `null` contributing nothing, and an all-`null` group
normalized to `0` by the `|| 0` in the source). -/
structure StatRow where
  status : RStatus
  count : ℕ
  feeSum : ℚ
  deriving DecidableEq, Repr

/-- All recipient statuses, in a fixed order. -/
def allStatuses : List RStatus :=
  [RStatus.pending, RStatus.retrying, RStatus.sent, RStatus.confirmed, RStatus.failed]

/-- The `feesPaid` column with SQL `null` read as `0` (the effect of `_sum` plus the
source's `Number(s._sum?.feesPaid || 0)`). -/
def feesPaidOrZero (r : RecipientRow) : ℚ :=
  r.feesPaid.getD 0

/-- The group row for one status. -/
def statGroup (rows : List RecipientRow) (st : RStatus) : StatRow :=
  { status := st
    count := (rows.filter (fun r => r.status == st)).length
    feeSum := ((rows.filter (fun r => r.status == st)).map feesPaidOrZero).sum }

/-- Models `prisma.recipient.groupBy` on [status] with count and fee sum: one row
per status that actually occurs among the rows. -/
def recipientGroupBy (rows : List RecipientRow) : List StatRow :=
  (allStatuses.filter (fun st => rows.any (fun r => r.status == st))).map
    (statGroup rows)

/-- The campaign-level fields written at finalization. -/
structure CampaignStatsWrite where
  totalConfirmed : ℕ
  totalFailed : ℕ
  totalSOLSpent : ℚ
  status : JobStatus
  deriving DecidableEq, Repr

/-- Shallow embedding of `DistributorService.updateCampaignStats`:
`totalConfirmed`/`totalFailed` come from the `confirmed`/`failed` group
rows (`?._count || 0`), while `totalSOLSpent` is
`stats.reduce((sum, s) => sum + Number(s._sum?.feesPaid || 0), 0)` —
a sum over the groups of **every** status, not only `confirmed`.
Finally the job status is set to `completed`. -/
def updateCampaignStats (rows : List RecipientRow) : CampaignStatsWrite :=
  let stats := recipientGroupBy rows
  { totalConfirmed :=
      ((stats.find? (fun s => s.status == RStatus.confirmed)).map StatRow.count).getD 0
    totalFailed :=
      ((stats.find? (fun s => s.status == RStatus.failed)).map StatRow.count).getD 0
    totalSOLSpent := stats.foldl (fun sum s => sum + s.feeSum) 0
    status := JobStatus.completed }

/-- Events of one `executeCampaign` execution, for the ordering between
job finalization and the detached confirmation monitors. -/
inductive EventT
  | dispatchTask (t : ℕ)
  | monitorStart (t : ℕ)
  | monitorSettle (t : ℕ)
  | finalizeStats
  deriving DecidableEq, Repr

/-- Index of the (first occurrence of the) event in the trace. -/
def traceIdx (tr : List EventT) (e : EventT) : ℕ :=
  tr.findIdx (fun x => x == e)

/-- Whether `a` occurs strictly before `b` in the trace. -/
def traceOrdered (tr : List EventT) (a b : EventT) : Bool :=
  decide (traceIdx tr a < traceIdx tr b)

/-- The orderings `executeCampaign` actually enforces, for a run in which
every pipeline succeeds once.  Per task: the pipeline is dispatched, and
before its promise resolves it starts `monitorConfirmation` (without
`await`), so `dispatch < monitorStart`; a monitor settles only after it
starts.  `processBatch` awaits `Promise.allSettled` of the pipeline
promises and `executeCampaign` runs `updateCampaignStats` after the batch
loop, so every `monitorStart` precedes `finalizeStats`.  **No constraint
places `monitorSettle` before `finalizeStats`**: the promise returned by
`this.monitorConfirmation(...)` is neither awaited nor collected anywhere
in the source. -/
def validTrace (tasks : List ℕ) (tr : List EventT) : Bool :=
  (tr.count EventT.finalizeStats == 1) &&
  tasks.all (fun t =>
    (tr.count (EventT.dispatchTask t) == 1) &&
    (tr.count (EventT.monitorStart t) == 1) &&
    (tr.count (EventT.monitorSettle t) == 1) &&
    traceOrdered tr (EventT.dispatchTask t) (EventT.monitorStart t) &&
    traceOrdered tr (EventT.monitorStart t) (EventT.monitorSettle t) &&
    traceOrdered tr (EventT.monitorStart t) EventT.finalizeStats)

/-- The recipients `executeCampaign` loads:
`where: { status: { in: ['pending', 'retrying'] } }`. -/
def eligibleRecipients (rows : List RecipientRow) : List RecipientRow :=
  rows.filter (fun r => r.status == RStatus.pending || r.status == RStatus.retrying)

/-- Observable effects of one `executeCampaign(campaignId)` call: the job
status writes it performs, in order, and the tasks it hands to the
pipeline. -/
structure ExecCampaignResult where
  statusWrites : List JobStatus
  dispatched : List RecipientRow
  deriving DecidableEq, Repr

/-- Whole-run observable model of `executeCampaign`.  The source fetches
the campaign row but never inspects its status (the only guard is
`if (!campaign) throw`): whatever the initial status, it (1) writes
`status = running`, (2) batches the pending+retrying recipients and
dispatches every batch, and (3) `updateCampaignStats` writes
`status = completed`.  The `initialStatus` argument is deliberately
unused, mirroring the absence of any status check in the source. -/
def executeCampaignObservable (_initialStatus : JobStatus) (size : ℕ)
    (hs : 0 < size) (rows : List RecipientRow) : ExecCampaignResult :=
  { statusWrites := [JobStatus.running, JobStatus.completed]
    dispatched := (createBatches size hs (eligibleRecipients rows)).flatten }

/-- An exact (not necessarily reduced) fraction `num / den`, used to model
the exact rational value of a JavaScript binary64 number.  Every `Frac`
built below has a positive denominator. -/
structure Frac where
  num : ℤ
  den : ℕ
  deriving DecidableEq, Repr

/-- Exact product of two fractions. -/
def Frac.mul (a b : Frac) : Frac :=
  ⟨a.num * b.num, a.den * b.den⟩

/-- Exact difference of two fractions. -/
def Frac.sub (a b : Frac) : Frac :=
  ⟨a.num * b.den - b.num * a.den, a.den * b.den⟩

/-- Strict order on fractions with positive denominators, by
cross-multiplication. -/
def Frac.blt (a b : Frac) : Bool :=
  a.num * b.den < b.num * a.den

/-- Floor of a fraction with a positive denominator (`Int.fdiv` rounds
toward negative infinity). -/
def Frac.floor (a : Frac) : ℤ :=
  a.num.fdiv a.den

/-- The fraction `n / 1`. -/
def Frac.ofInt (n : ℤ) : Frac :=
  ⟨n, 1⟩

/-- Fuel-driven floor base-2 logarithm (`natLog2 n = ⌊log₂ n⌋` for
`1 ≤ n < 2 ^ 200`, and `natLog2 0 = 0`). -/
def natLog2Go : ℕ → ℕ → ℕ
  | 0, _ => 0
  | fuel + 1, n => if n ≤ 1 then 0 else natLog2Go fuel (n / 2) + 1

/-- Floor base-2 logarithm of a natural number below `2 ^ 200`. -/
def natLog2 (n : ℕ) : ℕ :=
  natLog2Go 200 n

/-- The fraction `2 ^ c` for an integer exponent `c`. -/
def pow2 (c : ℤ) : Frac :=
  if 0 ≤ c then ⟨2 ^ c.toNat, 1⟩ else ⟨1, 2 ^ (-c).toNat⟩

/-- Floor of the base-2 logarithm of a positive fraction.
`natLog2 num - natLog2 den` is either the answer or one more than it, and
the comparison with `2 ^ c` settles which. -/
def floorLog2 (q : Frac) : ℤ :=
  let c : ℤ := (natLog2 q.num.toNat : ℤ) - (natLog2 q.den : ℤ)
  if q.blt (pow2 c) then c - 1 else c

/-- IEEE-754 binary64 rounding (round to nearest, ties to even) of a
positive fraction: scale into `[2^52, 2^53)`, round the 53-bit
significand, and scale back.  Overflow and subnormals are ignored — all
values arising below lie well inside the normal range. -/
def roundDoublePos (q : Frac) : Frac :=
  let e := floorLog2 q
  let s : ℤ := 52 - e
  let scaled := q.mul (pow2 s)
  let m0 : ℤ := scaled.floor
  let r := scaled.sub (Frac.ofInt m0)
  let m : ℤ :=
    if r.blt ⟨1, 2⟩ then m0
    else if Frac.blt ⟨1, 2⟩ r then m0 + 1
    else if m0 % 2 = 0 then m0 else m0 + 1
  (Frac.ofInt m).mul (pow2 (-s))

/-- IEEE-754 binary64 rounding of a fraction (sign-symmetric). -/
def roundDouble (q : Frac) : Frac :=
  if (Frac.ofInt 0).blt q then roundDoublePos q
  else if q.blt (Frac.ofInt 0) then
    ⟨-(roundDoublePos ⟨-q.num, q.den⟩).num, (roundDoublePos ⟨-q.num, q.den⟩).den⟩
  else Frac.ofInt 0

/-- JavaScript `a * b` on numbers: the exact product, rounded to the
nearest binary64 value. -/
def jsMul (a b : Frac) : Frac :=
  roundDouble (a.mul b)

/-- Models `Math.pow(10, d)`: exactly `10 ^ d` whenever that integer fits a
binary64 significand (all `tokenDecimals ≤ 15`), modelled as the rounded
value. -/
def mathPow10 (d : ℕ) : Frac :=
  roundDouble ⟨10 ^ d, 1⟩

/-- Models `parseFloat` of the decimal literal with value `n / 10 ^ d` (for
example `parseFloat("0.29") = jsParseFloat 29 2`): the nearest binary64
value.  This is also the value Prisma hands back for a stored decimal
`amount` once it is read into a JavaScript number. -/
def jsParseFloat (n : ℕ) (d : ℕ) : Frac :=
  roundDouble ⟨n, 10 ^ d⟩

/-- Shallow embedding of the amount put into the transfer instruction by
`sendTokenToRecipient` (`distributor.service.ts`, line 129):
`BigInt(Math.floor(recipient.amount * Math.pow(10, campaign.tokenDecimals)))`
— a floating-point multiplication followed by `Math.floor`. -/
def sendTokenTransferAmount (amount : Frac) (tokenDecimals : ℕ) : ℤ :=
  (jsMul amount (mathPow10 tokenDecimals)).floor

/-- Value of a decimal-digit character. -/
def charToDigit (c : Char) : ℕ :=
  c.toNat - 48

/-- Models `BigInt(s)` for a string of decimal digits. -/
def parseDecDigits (l : List Char) : ℕ :=
  l.foldl (fun acc c => 10 * acc + charToDigit c) 0

/-- JavaScript `String.prototype.padEnd(n, c)`. -/
def jsPadEnd (l : List Char) (n : ℕ) (c : Char) : List Char :=
  l ++ List.replicate (n - l.length) c

/-- The `whole` part of `String(amount).split('.')`: everything before
the first dot. -/
def jsSplitWhole (l : List Char) : List Char :=
  l.takeWhile (fun c => c != '.')

/-- The `fraction` part of `String(amount).split('.')` (destructured with
default `''`): everything between the first dot and the next one, empty
when there is no dot. -/
def jsSplitFraction (l : List Char) : List Char :=
  ((l.dropWhile (fun c => c != '.')).drop 1).takeWhile (fun c => c != '.')

/-- Shallow embedding of `toSmallestUnit(amount, decimals)` from
`server.js` / part_003: split on the dot, pad the fraction with `'0'` to
`decimals` places, truncate it to `decimals` places, concatenate, and
parse with `BigInt`. -/
def toSmallestUnit (amount : List Char) (decimals : ℕ) : ℕ :=
  let whole := jsSplitWhole amount
  let fraction := jsSplitFraction amount
  let paddedFraction := (jsPadEnd fraction decimals '0').take decimals
  parseDecDigits (whole ++ paddedFraction)

/-- Decimal rendering of a natural number (JavaScript
`BigInt.prototype.toString`), used to model re-parsing a stored
smallest-unit amount. -/
def natToDigits (n : ℕ) : List Char :=
  if n < 10 then [Char.ofNat (48 + n)]
  else natToDigits (n / 10) ++ [Char.ofNat (48 + n % 10)]
  termination_by n
  decreasing_by
    exact Nat.div_lt_self (by omega) (by omega)

lemma createBatchesIndex_eq (size : ℤ) (n : ℕ) :
    createBatchesIndex size n = n * size := by
  induction n with
  | zero => simp [createBatchesIndex]
  | succ n ih =>
      simp only [createBatchesIndex, createBatchesNext, ih]
      push_cast
      ring

lemma createBatches_join {α : Type} (size : ℕ) (hs : 0 < size) :
    ∀ l : List α, (createBatches size hs l).flatten = l := by
  have key : ∀ (n : ℕ) (l : List α), l.length ≤ n →
      (createBatches size hs l).flatten = l := by
    intro n
    induction n with
    | zero =>
        intro l hl
        have hnil : l = [] := List.length_eq_zero.mp (Nat.le_zero.mp hl)
        subst hnil
        simp [createBatches]
    | succ n ih =>
        intro l hl
        cases l with
        | nil => simp [createBatches]
        | cons x xs =>
            rw [createBatches]
            simp only [List.flatten_cons]
            rw [ih ((x :: xs).drop size)
              (by simp only [List.length_drop, List.length_cons]
                  simp only [List.length_cons] at hl
                  omega)]
            exact List.take_append_drop size (x :: xs)
  intro l
  exact key l.length l le_rfl

lemma createBatches_mem_length_le {α : Type} (size : ℕ) (hs : 0 < size) :
    ∀ (l : List α) (b : List α), b ∈ createBatches size hs l →
      b.length ≤ size := by
  have key : ∀ (n : ℕ) (l : List α), l.length ≤ n →
      ∀ b ∈ createBatches size hs l, b.length ≤ size := by
    intro n
    induction n with
    | zero =>
        intro l hl b hb
        have hnil : l = [] := List.length_eq_zero.mp (Nat.le_zero.mp hl)
        subst hnil
        simp [createBatches] at hb
    | succ n ih =>
        intro l hl b hb
        cases l with
        | nil => simp [createBatches] at hb
        | cons x xs =>
            rw [createBatches] at hb
            rcases List.mem_cons.mp hb with h | h
            · subst h
              simp only [List.length_take]
              exact min_le_left _ _
            · exact ih ((x :: xs).drop size)
                (by simp only [List.length_drop, List.length_cons]
                    simp only [List.length_cons] at hl
                    omega) b h
  intro l b hb
  exact key l.length l le_rfl b hb

/-- Claim C2 counterexample: at current attempts `a = 0` (first failure,
`maxRetries = 3`) the claim schedules re-entry after `2 ^ 0 * 1000 = 1000`
milliseconds, but `handleFailure` computes
`Math.pow(2, newAttempts) * 1000` with `newAttempts = 1` and schedules
`2000` milliseconds. -/
theorem handleFailure_delay_counterexample :
    (handleFailure 0 3 "relay rejected").retryDelayMs = some 2000 ∧
    (handleFailure 0 3 "relay rejected").retryDelayMs ≠ some (2 ^ (0 : ℕ) * 1000) := by
  decide

/-- Claim C2 (amended): on a failure with current attempts `a`, if
`a + 1 < maxRetries` the task is set to `retrying` with `attempts = a + 1`
and `lastError` recorded, and re-entry is scheduled after exactly
`2 ^ (a + 1)` seconds (not `2 ^ a`); otherwise the task is set to the
terminal `failed` status with `attempts = a + 1` and `lastError`
recorded, with no re-entry scheduled. -/
theorem handleFailure_spec (a : ℕ) (m : ℤ) (msg : String) :
    ((a : ℤ) + 1 < m →
      handleFailure a m msg =
        { status := RStatus.retrying
          attempts := a + 1
          lastError := msg
          retryDelayMs := some (2 ^ (a + 1) * 1000) }) ∧
    (¬ ((a : ℤ) + 1 < m) →
      handleFailure a m msg =
        { status := RStatus.failed
          attempts := a + 1
          lastError := msg
          retryDelayMs := none }) := by
  constructor <;> intro h
  · simp [handleFailure]
    omega
  · simp [handleFailure]
    omega

/-- Witness for `handleFailure_spec` at `a = 0, m = 3` (retry branch) and
`a = 2, m = 3` (terminal branch). -/
theorem handleFailure_spec_witness :
    handleFailure 0 3 "e" =
      { status := RStatus.retrying
        attempts := 1
        lastError := "e"
        retryDelayMs := some 2000 } ∧
    handleFailure 2 3 "e" =
      { status := RStatus.failed
        attempts := 3
        lastError := "e"
        retryDelayMs := none } := by
  constructor
  · have h := (handleFailure_spec 0 3 "e").1 (by norm_num)
    simpa using h
  · have h := (handleFailure_spec 2 3 "e").2 (by norm_num)
    simpa using h

/-- Claim C8: for a positive batch size, `createBatches` partitions the
eligible tasks into ordered batches whose concatenation is exactly the
input list (stable order, no task duplicated or dropped), every batch has
at most `size` tasks, and `processBatch` dispatches at most `size`
concurrent pipeline invocations per round. -/
theorem createBatches_partition (rows : List RecipientRow) (size : ℕ)
    (hs : 0 < size) :
    (createBatches size hs rows).flatten = rows ∧
    (∀ b ∈ createBatches size hs rows, b.length ≤ size) ∧
    (∀ b ∈ createBatches size hs rows, (processBatch b).length ≤ size) := by
  refine ⟨createBatches_join size hs rows,
    fun b hb => createBatches_mem_length_le size hs rows b hb,
    fun b hb => ?_⟩
  simpa [processBatch] using createBatches_mem_length_le size hs rows b hb

/-- Witness for `createBatches_partition` with three tasks and
batch size 2. -/
theorem createBatches_partition_witness :
    (createBatches 2 (Nat.succ_pos 1)
        [({ status := RStatus.pending, feesPaid := none } : RecipientRow),
          { status := RStatus.retrying, feesPaid := none },
          { status := RStatus.pending, feesPaid := none }]).flatten =
      [({ status := RStatus.pending, feesPaid := none } : RecipientRow),
        { status := RStatus.retrying, feesPaid := none },
        { status := RStatus.pending, feesPaid := none }] ∧
    ∀ b ∈ createBatches 2 (Nat.succ_pos 1)
        [({ status := RStatus.pending, feesPaid := none } : RecipientRow),
          { status := RStatus.retrying, feesPaid := none },
          { status := RStatus.pending, feesPaid := none }],
      (processBatch b).length ≤ 2 :=
  ⟨(createBatches_partition _ 2 (Nat.succ_pos 1)).1,
    (createBatches_partition _ 2 (Nat.succ_pos 1)).2.2⟩

/-- Claim C10: the `createBatches` loop index never passes the array when
`size ≤ 0` (the guard `i < array.length` stays true forever, so the loop
does not terminate on any non-empty array), it does pass the array for
every `size > 0`, and a negative `batchSize` reaches `createBatches` from
user-supplied input because `parseInt(batchSize) || 20` keeps every
non-zero integer. -/
theorem createBatches_termination (size len : ℤ) :
    (size ≤ 0 → 0 < len →
      ∀ n : ℕ, createBatchesGuard len (createBatchesIndex size n) = true) ∧
    (0 < size →
      ∃ n : ℕ, createBatchesGuard len (createBatchesIndex size n) = false) ∧
    campaignBatchSize (some (-5)) = -5 := by
  refine ⟨fun hsz hlen n => ?_, fun hsz => ⟨len.toNat, ?_⟩, rfl⟩
  · simp only [createBatchesGuard, createBatchesIndex_eq, decide_eq_true_eq]
    have h1 : (n : ℤ) * size ≤ 0 :=
      mul_nonpos_iff.mpr (Or.inl ⟨by positivity, hsz⟩)
    linarith
  · simp only [createBatchesGuard, createBatchesIndex_eq,
      decide_eq_false_iff_not, not_lt]
    have h1 : len ≤ (len.toNat : ℤ) := Int.self_le_toNat len
    have h2 : (len.toNat : ℤ) * 1 ≤ (len.toNat : ℤ) * size :=
      mul_le_mul_of_nonneg_left (by omega) (by positivity)
    linarith

/-- Witness for `createBatches_termination`: with `size = -5` the guard
still holds after 7 iterations on a 3-element array, and with `size = 2`
the guard eventually fails. -/
theorem createBatches_termination_witness :
    createBatchesGuard 3 (createBatchesIndex (-5) 7) = true ∧
    (∃ n : ℕ, createBatchesGuard 3 (createBatchesIndex 2 n) = false) :=
  ⟨(createBatches_termination (-5) 3).1 (by norm_num) (by norm_num) 7,
    (createBatches_termination 2 3).2.1 (by norm_num)⟩

/-- Claim C4: with three batches and a cancellation recorded after
batch 0 finishes, `executeCampaign` still dispatches all three batches
(its loop never reads the job status) and ends the job `completed`,
overwriting the recorded cancellation — whereas the sibling engine
`processJob` in `server.js` dispatches nothing after the cancellation and
preserves the `cancelled` status, which is the behavior the claim
describes. -/
theorem executeCampaign_cancellation_ignored :
    (executeCampaignRun [[1], [2], [3]] (fun i => decide (1 ≤ i))).dispatched =
      ([[1], [2], [3]] : List (List ℕ)) ∧
    (executeCampaignRun ([[1], [2], [3]] : List (List ℕ))
        (fun i => decide (1 ≤ i))).finalStatus = JobStatus.completed ∧
    (processJobRun [[1], [2], [3]] (fun i => decide (1 ≤ i))).dispatched =
      ([[1]] : List (List ℕ)) ∧
    (processJobRun ([[1], [2], [3]] : List (List ℕ))
        (fun i => decide (1 ≤ i))).finalStatus = JobStatus.cancelled ∧
    JobStatus.completed ≠ JobStatus.cancelled := by
  decide

/-- Claim C9 counterexample: invoking `executeCampaign` on a campaign
whose status is `cancelled` (not `pending`) with one pending recipient is
not a no-op — it writes `running` and then `completed` to the job and
dispatches the pending task. -/
theorem executeCampaign_not_noop_counterexample :
    (executeCampaignObservable JobStatus.cancelled 20 (Nat.succ_pos 19)
        [{ status := RStatus.pending, feesPaid := none }]).dispatched =
      [{ status := RStatus.pending, feesPaid := none }] ∧
    (executeCampaignObservable JobStatus.cancelled 20 (Nat.succ_pos 19)
        [{ status := RStatus.pending, feesPaid := none }]).statusWrites =
      [JobStatus.running, JobStatus.completed] ∧
    [({ status := RStatus.pending, feesPaid := none } : RecipientRow)] ≠ [] ∧
    ([JobStatus.running, JobStatus.completed] : List JobStatus) ≠ [] := by
  refine ⟨?_, rfl, by decide, by decide⟩
  have h := createBatches_join 20 (Nat.succ_pos 19)
    (eligibleRecipients [{ status := RStatus.pending, feesPaid := none }])
  simp only [executeCampaignObservable, h]
  simp [eligibleRecipients]

/-- Claim C9 (amended): `executeCampaign` is not guarded on the job's
status: for every initial status it performs exactly the same run —
writing `running` then `completed` and dispatching exactly the
pending/retrying recipients — so it is a no-op on non-`pending` jobs
neither in its writes nor in its dispatches. -/
theorem executeCampaign_status_blind (st : JobStatus) (size : ℕ)
    (hs : 0 < size) (rows : List RecipientRow) :
    executeCampaignObservable st size hs rows =
      { statusWrites := [JobStatus.running, JobStatus.completed]
        dispatched := eligibleRecipients rows } ∧
    executeCampaignObservable st size hs rows =
      executeCampaignObservable JobStatus.pending size hs rows := by
  constructor
  · have h := createBatches_join size hs (eligibleRecipients rows)
    simp only [executeCampaignObservable, h]
  · rfl

/-- Witness for `executeCampaign_status_blind` on a `completed` campaign
with one `retrying` recipient and batch size 2. -/
theorem executeCampaign_status_blind_witness :
    executeCampaignObservable JobStatus.completed 2 (Nat.succ_pos 1)
        [{ status := RStatus.retrying, feesPaid := none }] =
      { statusWrites := [JobStatus.running, JobStatus.completed]
        dispatched := [{ status := RStatus.retrying, feesPaid := none }] } := by
  have h := (executeCampaign_status_blind JobStatus.completed 2 (Nat.succ_pos 1)
    [{ status := RStatus.retrying, feesPaid := none }]).1
  simpa [eligibleRecipients] using h

/-- Claim C5: whenever the confirmation outcome is an on-chain error or a
thrown expiry, `monitorConfirmation` performs exactly one engine call — a
task update recording `status = failed` with a non-null `lastError` — so
the task ends terminal `failed` (not `retrying`, not `pending`) whatever
its prior status, and the Retry Controller (`handleFailure`) is never
invoked and the pipeline (`sendTokenToRecipient`) is never re-entered. -/
theorem monitorConfirmation_failure_terminal (o : ConfirmOutcome)
    (h : ∀ fee, o ≠ ConfirmOutcome.finalized fee) :
    ∃ w : MonitorWrite,
      monitorConfirmation o = [EngineCall.updateRecipient w] ∧
      w.status = RStatus.failed ∧
      w.lastError ≠ none ∧
      w.status ≠ RStatus.retrying ∧
      w.status ≠ RStatus.pending ∧
      (∀ s : RStatus, applyMonitorWrite s w = RStatus.failed) ∧
      (∀ c ∈ monitorConfirmation o,
        (∀ msg, c ≠ EngineCall.invokeHandleFailure msg) ∧
        c ≠ EngineCall.invokeSendTokenToRecipient) := by
  cases o with
  | finalized fee => exact absurd rfl (h fee)
  | chainError =>
      refine ⟨_, rfl, rfl, by simp, by simp, by simp, fun s => rfl, ?_⟩
      intro c hc
      simp only [monitorConfirmation, List.mem_singleton] at hc
      subst hc
      exact ⟨fun msg h => EngineCall.noConfusion h,
        fun h => EngineCall.noConfusion h⟩
  | expired msg =>
      refine ⟨_, rfl, rfl, by simp, by simp, by simp, fun s => rfl, ?_⟩
      intro c hc
      simp only [monitorConfirmation, List.mem_singleton] at hc
      subst hc
      exact ⟨fun m h => EngineCall.noConfusion h,
        fun h => EngineCall.noConfusion h⟩

/-- Witness for `monitorConfirmation_failure_terminal` at the on-chain
error outcome. -/
theorem monitorConfirmation_failure_terminal_witness :
    ∃ w : MonitorWrite,
      monitorConfirmation ConfirmOutcome.chainError =
        [EngineCall.updateRecipient w] ∧
      w.status = RStatus.failed ∧
      w.lastError ≠ none ∧
      w.status ≠ RStatus.retrying ∧
      w.status ≠ RStatus.pending ∧
      (∀ s : RStatus, applyMonitorWrite s w = RStatus.failed) ∧
      (∀ c ∈ monitorConfirmation ConfirmOutcome.chainError,
        (∀ msg, c ≠ EngineCall.invokeHandleFailure msg) ∧
        c ≠ EngineCall.invokeSendTokenToRecipient) :=
  monitorConfirmation_failure_terminal ConfirmOutcome.chainError
    (fun _ h => ConfirmOutcome.noConfusion h)

/-- Claim C7 counterexample: the trace that dispatches task 0, starts its
monitor, finalizes the job stats, and only then settles the monitor is a
valid execution of `executeCampaign` (the monitor promise is never
awaited), and in it finalization precedes the monitor's settlement. -/
theorem statsBeforeMonitorSettle_counterexample :
    validTrace [0]
      [EventT.dispatchTask 0, EventT.monitorStart 0, EventT.finalizeStats,
        EventT.monitorSettle 0] = true ∧
    traceOrdered
      [EventT.dispatchTask 0, EventT.monitorStart 0, EventT.finalizeStats,
        EventT.monitorSettle 0] EventT.finalizeStats (EventT.monitorSettle 0) =
      true ∧
    traceOrdered
      [EventT.dispatchTask 0, EventT.monitorStart 0, EventT.finalizeStats,
        EventT.monitorSettle 0] (EventT.monitorSettle 0) EventT.finalizeStats =
      false := by
  decide

/-- Claim C7 (amended): job finalization is ordered after every task
dispatch and every monitor start (the batch loop awaits the pipeline
promises), but not after monitor settlement: there is a valid execution
in which `updateCampaignStats` runs before an outstanding monitor
settles, because the monitor promise is neither awaited nor collected. -/
theorem finalize_after_dispatch_not_after_settle :
    (∀ (tasks : List ℕ) (tr : List EventT), validTrace tasks tr = true →
      ∀ t ∈ tasks,
        traceOrdered tr (EventT.dispatchTask t) EventT.finalizeStats = true ∧
        traceOrdered tr (EventT.monitorStart t) EventT.finalizeStats = true) ∧
    (∃ tr : List EventT, validTrace [0] tr = true ∧
      traceOrdered tr EventT.finalizeStats (EventT.monitorSettle 0) = true) := by
  constructor
  · intro tasks tr hv t ht
    simp only [validTrace, Bool.and_eq_true, List.all_eq_true] at hv
    obtain ⟨_, hall⟩ := hv
    have h := hall t ht
    simp only [Bool.and_eq_true] at h
    obtain ⟨⟨⟨⟨⟨_, _⟩, _⟩, h4⟩, _⟩, h6⟩ := h
    refine ⟨?_, h6⟩
    simp only [traceOrdered, decide_eq_true_eq] at h4 h6 ⊢
    omega
  · exact ⟨[EventT.dispatchTask 0, EventT.monitorStart 0,
      EventT.finalizeStats, EventT.monitorSettle 0], by decide, by decide⟩

/-- Witness for `finalize_after_dispatch_not_after_settle` on the fully
sequential single-task trace. -/
theorem finalize_after_dispatch_not_after_settle_witness :
    traceOrdered
      [EventT.dispatchTask 0, EventT.monitorStart 0, EventT.monitorSettle 0,
        EventT.finalizeStats] (EventT.dispatchTask 0) EventT.finalizeStats =
      true ∧
    traceOrdered
      [EventT.dispatchTask 0, EventT.monitorStart 0, EventT.monitorSettle 0,
        EventT.finalizeStats] (EventT.monitorStart 0) EventT.finalizeStats =
      true :=
  finalize_after_dispatch_not_after_settle.1 [0]
    [EventT.dispatchTask 0, EventT.monitorStart 0, EventT.monitorSettle 0,
      EventT.finalizeStats] (by decide) 0 (by decide)

lemma taskStep_db_le_mem (m : ℤ) (s : TaskState) (hr : TaskReachable m s) :
    s.dbAttempts ≤ s.memAttempts + 1 := by
  induction hr with
  | init => simp [initialTask]
  | step hr hst ih =>
      cases hst <;> simp_all

lemma taskInv_bound (m : ℤ) (hm : 1 ≤ m) (s : TaskState)
    (hr : TaskReachable m s) :
    (s.status = RStatus.pending → s.dbAttempts = 0) ∧
    (s.status = RStatus.retrying → (s.dbAttempts : ℤ) < m) ∧
    (s.picked = true → (s.memAttempts : ℤ) < m) ∧
    (s.status ≠ RStatus.failed → (s.dbAttempts : ℤ) ≤ m) := by
  induction hr with
  | init =>
      refine ⟨fun _ => rfl, fun h => by simp [initialTask] at h,
        fun h => by simp [initialTask] at h, fun _ => ?_⟩
      simp only [initialTask, Nat.cast_zero]
      omega
  | step hr hst ih =>
      obtain ⟨ih1, ih2, ih3, ih4⟩ := ih
      cases hst with
      | pickup hp hstat =>
          refine ⟨fun h => ih1 h, fun h => ih2 h, fun _ => ?_, fun h => ih4 h⟩
          rcases hstat with h0 | h0
          · have h1 := ih1 h0
            dsimp only
            rw [h1]
            simp only [Nat.cast_zero]
            omega
          · exact ih2 h0
      | sendSuccess hp =>
          refine ⟨fun h => by simp at h, fun h => by simp at h,
            fun _ => ih3 hp, fun _ => ?_⟩
          have h3 := ih3 hp
          dsimp only
          push_cast
          omega
      | failRetry hp hlt =>
          refine ⟨fun h => by simp at h, fun _ => ?_, fun _ => ih3 hp,
            fun _ => ?_⟩
          · dsimp only
            push_cast
            omega
          · dsimp only
            push_cast
            omega
      | failTerminal hp hge =>
          exact ⟨fun h => by simp at h, fun h => by simp at h,
            fun _ => ih3 hp, fun h => by simp at h⟩
      | confirmOk hsent =>
          refine ⟨fun h => by simp at h, fun h => by simp at h,
            fun hpk => ih3 hpk, fun _ => ?_⟩
          exact ih4 (by simp [hsent])
      | confirmFail hsent =>
          exact ⟨fun h => by simp at h, fun h => by simp at h,
            fun hpk => ih3 hpk, fun h => by simp at h⟩

/-- Claim C3 (amended): along every engine write of a single run a task's
`attempts` column never decreases; and provided `1 ≤ maxRetries`, a
reachable task that is not in terminal `failed` status has
`attempts ≤ maxRetries`.  (For `maxRetries ≤ 0`, which the creation route
accepts, the bound fails — see the counterexample.) -/
theorem attempts_monotone_and_bounded (m : ℤ) (s t : TaskState) :
    (TaskReachable m s → TaskStep m s t → s.dbAttempts ≤ t.dbAttempts) ∧
    (1 ≤ m → TaskReachable m s → s.status ≠ RStatus.failed →
      (s.dbAttempts : ℤ) ≤ m) := by
  constructor
  · intro hr hst
    have hinv := taskStep_db_le_mem m s hr
    cases hst <;> simp_all
  · intro hm hr hs
    exact (taskInv_bound m hm s hr).2.2.2 hs

/-- Witness for `attempts_monotone_and_bounded`: the pickup step out of
the initial state does not decrease `attempts`, and the initial state
respects the bound for `maxRetries = 3`. -/
theorem attempts_monotone_and_bounded_witness :
    initialTask.dbAttempts ≤
      ({ status := RStatus.pending, dbAttempts := 0, memAttempts := 0,
          picked := true } : TaskState).dbAttempts ∧
    (initialTask.dbAttempts : ℤ) ≤ 3 :=
  ⟨(attempts_monotone_and_bounded 3 initialTask
      { status := RStatus.pending, dbAttempts := 0, memAttempts := 0,
        picked := true }).1 TaskReachable.init
      (TaskStep.pickup initialTask rfl (Or.inl rfl)),
    (attempts_monotone_and_bounded 3 initialTask initialTask).2 (by norm_num)
      TaskReachable.init (by simp [initialTask])⟩

/-- Claim C3 counterexample: the route accepts `maxRetries = -1`
(`parseInt('-1') || 3` keeps `-1`), and under it a fresh task that is
picked up and sent successfully reaches status `sent` — not terminal
`failed` — with `attempts = 1 > maxRetries`, violating the claimed
invariant. -/
theorem attempts_bound_counterexample :
    campaignMaxRetries (some (-1)) = -1 ∧
    TaskReachable (-1)
      { status := RStatus.sent, dbAttempts := 1, memAttempts := 0,
        picked := true } ∧
    ({ status := RStatus.sent, dbAttempts := 1, memAttempts := 0,
          picked := true } : TaskState).status ≠ RStatus.failed ∧
    ¬ ((({ status := RStatus.sent, dbAttempts := 1, memAttempts := 0,
            picked := true } : TaskState).dbAttempts : ℤ) ≤ -1) := by
  refine ⟨rfl, ?_, by decide, by norm_num⟩
  exact TaskReachable.step
    (TaskReachable.step TaskReachable.init
      (TaskStep.pickup initialTask rfl (Or.inl rfl)))
    (TaskStep.sendSuccess
      { status := RStatus.pending, dbAttempts := 0, memAttempts := 0,
        picked := true } rfl)

lemma foldl_add_feeSum (l : List StatRow) (a : ℚ) :
    l.foldl (fun sum s => sum + s.feeSum) a = a + (l.map StatRow.feeSum).sum := by
  induction l generalizing a with
  | nil => simp
  | cons x xs ih =>
      simp only [List.foldl_cons, List.map_cons, List.sum_cons, ih]
      ring

lemma filter_status_nil (rows : List RecipientRow) (st : RStatus)
    (h : rows.any (fun r => r.status == st) = false) :
    rows.filter (fun r => r.status == st) = [] := by
  induction rows with
  | nil => rfl
  | cons r rows ih =>
      simp only [List.any_cons, Bool.or_eq_false_iff] at h
      simp [List.filter_cons, h.1, ih h.2]

lemma statuses_filter_map_sum (rows : List RecipientRow) (sts : List RStatus) :
    ((sts.filter (fun st => rows.any (fun r => r.status == st))).map
        (fun st =>
          ((rows.filter (fun r => r.status == st)).map feesPaidOrZero).sum)).sum =
      (sts.map (fun st =>
        ((rows.filter (fun r => r.status == st)).map feesPaidOrZero).sum)).sum := by
  induction sts with
  | nil => rfl
  | cons st sts ih =>
      by_cases h : rows.any (fun r => r.status == st) = true
      · simp [List.filter_cons, h, ih]
      · have h0 : rows.filter (fun r => r.status == st) = [] :=
          filter_status_nil rows st (by simpa using h)
        simp [List.filter_cons, h, ih, h0]

lemma status_mem_allStatuses (st : RStatus) : st ∈ allStatuses := by
  cases st <;> simp [allStatuses]

lemma sum_filter_statuses_total (rows : List RecipientRow) :
    (allStatuses.map (fun st =>
        ((rows.filter (fun r => r.status == st)).map feesPaidOrZero).sum)).sum =
      (rows.map feesPaidOrZero).sum := by
  induction rows with
  | nil => simp [allStatuses]
  | cons r rows ih =>
      cases hst : r.status <;>
        simp only [allStatuses, List.filter_cons, hst, beq_iff_eq,
          reduceCtorEq, if_true, if_false, ite_true, ite_false,
          beq_self_eq_true, List.map_cons, List.map_nil, List.sum_cons,
          List.sum_nil, ← ih] <;>
        ring

lemma find?_groups_none (rows : List RecipientRow) (st : RStatus) :
    ∀ sts : List RStatus, st ∉ sts →
      ((sts.filter (fun s => rows.any (fun r => r.status == s))).map
          (statGroup rows)).find? (fun s => s.status == st) = none := by
  intro sts
  induction sts with
  | nil => intro _; rfl
  | cons a as ih =>
      intro hmem
      have ha : (a == st) = false :=
        beq_eq_false_iff_ne.mpr fun h => hmem (h ▸ List.mem_cons_self a as)
      have has : st ∉ as := fun h => hmem (List.mem_cons_of_mem a h)
      by_cases hp : rows.any (fun r => r.status == a) = true
      · simp [List.filter_cons, hp, List.find?_cons, statGroup, ha, ih has]
      · simp [List.filter_cons, hp, ih has]

lemma find?_groups (rows : List RecipientRow) (st : RStatus) :
    ∀ sts : List RStatus, sts.Nodup → st ∈ sts →
      ((sts.filter (fun s => rows.any (fun r => r.status == s))).map
          (statGroup rows)).find? (fun s => s.status == st) =
        (if rows.any (fun r => r.status == st) = true
          then some (statGroup rows st) else none) := by
  intro sts
  induction sts with
  | nil => intro _ h; simp at h
  | cons a as ih =>
      intro hnd hmem
      obtain ⟨hna, hndas⟩ := List.nodup_cons.mp hnd
      rcases List.mem_cons.mp hmem with heq | hmem2
      · subst heq
        by_cases hp : rows.any (fun r => r.status == st) = true
        · simp [List.filter_cons, hp, List.find?_cons, statGroup]
        · simp [List.filter_cons, hp, find?_groups_none rows st as hna]
      · have ha : (a == st) = false :=
          beq_eq_false_iff_ne.mpr fun h => hna (h ▸ hmem2)
        by_cases hp : rows.any (fun r => r.status == a) = true
        · simp [List.filter_cons, hp, List.find?_cons, statGroup, ha,
            ih hndas hmem2]
        · simp [List.filter_cons, hp, ih hndas hmem2]

lemma groups_count (rows : List RecipientRow) (st : RStatus) :
    (((recipientGroupBy rows).find? (fun s => s.status == st)).map
        StatRow.count).getD 0 =
      (rows.filter (fun r => r.status == st)).length := by
  unfold recipientGroupBy
  rw [find?_groups rows st allStatuses (by decide) (status_mem_allStatuses st)]
  by_cases hp : rows.any (fun r => r.status == st) = true
  · simp [hp, statGroup]
  · have h0 := filter_status_nil rows st (by simpa using hp)
    simp [hp, h0]

lemma groups_feeSum_total (rows : List RecipientRow) :
    (recipientGroupBy rows).foldl (fun sum s => sum + s.feeSum) 0 =
      (rows.map feesPaidOrZero).sum := by
  unfold recipientGroupBy
  rw [foldl_add_feeSum, List.map_map]
  have hcomp : (StatRow.feeSum ∘ statGroup rows) = fun st =>
      ((rows.filter (fun r => r.status == st)).map feesPaidOrZero).sum := rfl
  rw [hcomp, statuses_filter_map_sum, sum_filter_statuses_total, zero_add]

lemma sum_fee_confirmed_only (rows : List RecipientRow)
    (h : ∀ r ∈ rows, r.status ≠ RStatus.confirmed → r.feesPaid = none) :
    (rows.map feesPaidOrZero).sum =
      ((rows.filter (fun r => r.status == RStatus.confirmed)).map
        feesPaidOrZero).sum := by
  induction rows with
  | nil => rfl
  | cons r rows ih =>
      have hrest : ∀ x ∈ rows, x.status ≠ RStatus.confirmed → x.feesPaid = none :=
        fun x hx => h x (List.mem_cons_of_mem r hx)
      by_cases hc : r.status = RStatus.confirmed
      · simp [List.filter_cons, hc, ih hrest]
      · have hf : r.feesPaid = none := h r (List.mem_cons_self r rows) hc
        have hb : (r.status == RStatus.confirmed) = false :=
          beq_eq_false_iff_ne.mpr hc
        simp [List.filter_cons, hb, ih hrest, feesPaidOrZero, hf]

/-- Claim C6 (amended): at finalization `updateCampaignStats` writes
`totalConfirmed` equal to the number of `confirmed` tasks, `totalFailed`
equal to the number of `failed` tasks, and sets the job `completed`; but
the cumulative fee `totalSOLSpent` sums `feesPaid` over tasks of **all**
statuses (`null` contributing `0`), coinciding with the confirmed-only
sum exactly when no non-confirmed task carries a non-null `feesPaid`. -/
theorem updateCampaignStats_spec (rows : List RecipientRow) :
    (updateCampaignStats rows).totalConfirmed =
      (rows.filter (fun r => r.status == RStatus.confirmed)).length ∧
    (updateCampaignStats rows).totalFailed =
      (rows.filter (fun r => r.status == RStatus.failed)).length ∧
    (updateCampaignStats rows).totalSOLSpent = (rows.map feesPaidOrZero).sum ∧
    (updateCampaignStats rows).status = JobStatus.completed ∧
    ((∀ r ∈ rows, r.status ≠ RStatus.confirmed → r.feesPaid = none) →
      (updateCampaignStats rows).totalSOLSpent =
        ((rows.filter (fun r => r.status == RStatus.confirmed)).map
          feesPaidOrZero).sum) := by
  refine ⟨groups_count rows RStatus.confirmed, groups_count rows RStatus.failed,
    groups_feeSum_total rows, rfl, fun hnull => ?_⟩
  exact (groups_feeSum_total rows).trans (sum_fee_confirmed_only rows hnull)

/-- Witness for `updateCampaignStats_spec` on one confirmed task with a
fee of 2. -/
theorem updateCampaignStats_spec_witness :
    (updateCampaignStats
        [{ status := RStatus.confirmed, feesPaid := some 2 }]).totalConfirmed =
      1 ∧
    (updateCampaignStats
        [{ status := RStatus.confirmed, feesPaid := some 2 }]).totalSOLSpent =
      2 := by
  constructor
  · have h := (updateCampaignStats_spec
      [{ status := RStatus.confirmed, feesPaid := some 2 }]).1
    simpa using h
  · have h := (updateCampaignStats_spec
      [{ status := RStatus.confirmed, feesPaid := some 2 }]).2.2.2.2 (by simp)
    simpa [feesPaidOrZero] using h

/-- Claim C6 counterexample: for a single `failed` task carrying
`feesPaid = 5`, `updateCampaignStats` writes `totalSOLSpent = 5`,
although the sum of `feesPaid` over confirmed tasks only (the claimed
value) is the empty sum `0`. -/
theorem updateCampaignStats_fee_counterexample :
    (updateCampaignStats
        [{ status := RStatus.failed, feesPaid := some 5 }]).totalSOLSpent = 5 ∧
    (([{ status := RStatus.failed, feesPaid := some 5 }] :
        List RecipientRow).filter
      (fun r => r.status == RStatus.confirmed)).map feesPaidOrZero = [] ∧
    (5 : ℚ) ≠ 0 := by
  refine ⟨?_, by decide, by norm_num⟩
  have h := groups_feeSum_total [{ status := RStatus.failed, feesPaid := some 5 }]
  have h2 : (updateCampaignStats
      [{ status := RStatus.failed, feesPaid := some 5 }]).totalSOLSpent =
      (([{ status := RStatus.failed, feesPaid := some 5 }] :
        List RecipientRow).map feesPaidOrZero).sum := h
  rw [h2]
  simp [feesPaidOrZero]

lemma digit_char_toDigit : ∀ d, d < 10 → charToDigit (Char.ofNat (48 + d)) = d := by
  decide

lemma digit_char_ne_dot : ∀ d, d < 10 → (Char.ofNat (48 + d) != '.') = true := by
  decide

lemma natToDigits_not_dot (n : ℕ) : ∀ c ∈ natToDigits n, (c != '.') = true := by
  induction n using Nat.strong_induction_on with
  | _ n ih =>
      intro c hc
      rw [natToDigits] at hc
      by_cases h : n < 10
      · rw [if_pos h] at hc
        simp only [List.mem_singleton] at hc
        subst hc
        exact digit_char_ne_dot n h
      · rw [if_neg h] at hc
        rcases List.mem_append.mp hc with h1 | h1
        · exact ih (n / 10) (Nat.div_lt_self (by omega) (by omega)) c h1
        · simp only [List.mem_singleton] at h1
          subst h1
          exact digit_char_ne_dot (n % 10) (Nat.mod_lt n (by omega))

lemma parseDecDigits_go (l : List Char) (a : ℕ) :
    l.foldl (fun acc c => 10 * acc + charToDigit c) a =
      a * 10 ^ l.length + parseDecDigits l := by
  induction l generalizing a with
  | nil => simp [parseDecDigits]
  | cons c l ih =>
      simp only [List.foldl_cons, List.length_cons]
      rw [ih (10 * a + charToDigit c)]
      unfold parseDecDigits
      simp only [List.foldl_cons]
      rw [ih (10 * 0 + charToDigit c)]
      rw [show List.foldl (fun acc c => 10 * acc + charToDigit c) 0 l =
        parseDecDigits l from rfl]
      ring

lemma parseDecDigits_append_digit (l : List Char) (c : Char) :
    parseDecDigits (l ++ [c]) = 10 * parseDecDigits l + charToDigit c := by
  unfold parseDecDigits
  rw [List.foldl_append]
  simp [List.foldl_cons]

lemma parseDecDigits_natToDigits (n : ℕ) :
    parseDecDigits (natToDigits n) = n := by
  induction n using Nat.strong_induction_on with
  | _ n ih =>
      rw [natToDigits]
      by_cases h : n < 10
      · rw [if_pos h]
        simp only [parseDecDigits, List.foldl_cons, List.foldl_nil]
        rw [digit_char_toDigit n h]
        omega
      · rw [if_neg h, parseDecDigits_append_digit,
          ih (n / 10) (Nat.div_lt_self (by omega) (by omega)),
          digit_char_toDigit (n % 10) (Nat.mod_lt n (by omega))]
        omega

lemma takeWhile_eq_self_of_all {p : Char → Bool} (l : List Char)
    (h : ∀ c ∈ l, p c = true) : l.takeWhile p = l := by
  induction l with
  | nil => rfl
  | cons c l ih =>
      simp [List.takeWhile_cons, h c (List.mem_cons_self c l),
        ih (fun x hx => h x (List.mem_cons_of_mem c hx))]

lemma dropWhile_eq_nil_of_all {p : Char → Bool} (l : List Char)
    (h : ∀ c ∈ l, p c = true) : l.dropWhile p = [] := by
  induction l with
  | nil => rfl
  | cons c l ih =>
      simp [List.dropWhile_cons, h c (List.mem_cons_self c l),
        ih (fun x hx => h x (List.mem_cons_of_mem c hx))]

lemma toSmallestUnit_reparse (m : ℕ) :
    toSmallestUnit (natToDigits m) 0 = m := by
  have hall := natToDigits_not_dot m
  unfold toSmallestUnit jsSplitWhole jsSplitFraction jsPadEnd
  rw [takeWhile_eq_self_of_all _ hall, dropWhile_eq_nil_of_all _ hall]
  simp [parseDecDigits_natToDigits]

set_option maxRecDepth 4000 in
/-- Claim C1: the string-based conversion is exact —
`toSmallestUnit("100.5", 9) = 100500000000` — and an amount stored as its
smallest-unit integer string re-parses to the same integer; but the
transfer instruction built by `sendTokenToRecipient` computes
`BigInt(Math.floor(recipient.amount * Math.pow(10, tokenDecimals)))` in
binary64 floating point: for a recipient amount of `0.29` with 2 decimals
the instruction carries `28` smallest units, while exact string-based
scaling (`toSmallestUnit("0.29", 2)`) gives `29` — the floating-point
product `0.29 * 100` rounds to `28.999999999999996`, whose floor is
`28`. -/
theorem amountConversion_exact_vs_float :
    toSmallestUnit ['1', '0', '0', '.', '5'] 9 = 100500000000 ∧
    (∀ m : ℕ, toSmallestUnit (natToDigits m) 0 = m) ∧
    toSmallestUnit ['0', '.', '2', '9'] 2 = 29 ∧
    jsParseFloat 29 2 = ⟨5224175567749775, 2 ^ 54⟩ ∧
    sendTokenTransferAmount (jsParseFloat 29 2) 2 = 28 ∧
    (28 : ℤ) ≠ 29 :=
  ⟨by decide, toSmallestUnit_reparse, by decide, by decide, by decide, by decide⟩
